import Mathlib

/-!
Package `signature`: keyed hashing with a swappable digest function.

A shallow embedding of `hash_func.go`.

* A Go `string` is an immutable sequence of bytes; the conversions
  `string(b)` and `[]byte(s)` copy the bytes unchanged.  Both types are
  embedded as `List UInt8`.
* The package-level variable `Hash` is the only mutable state; it is the
  single field of `State`, and `HashWithKeys` is written in state-passing
  style.  A `HashFunc` value is a total function on byte strings.
* A Go func value can also assign `Hash` while it runs.  The namespace
  `Impure` embeds such func values and `HashWithKeys` over them; on func
  values that make no assignment it agrees with the embedding above.
* The packages `crypto/sha1`, `crypto/md5`, `fmt` and `stew/strings` are
  imported by the source and are not part of it; their functions are
  modelled after RFC 3174, RFC 1321 and their documented behaviour.
* 32-bit words of the digest computations are natural numbers reduced
  modulo `2 ^ 32` after every addition and left shift.
-/

namespace Signature

/-! ## Go strings and byte slices -/

/-- A Go `string`: a finite sequence of bytes. -/
abbrev GoString := List UInt8

/-- The bytes of a Go string literal (Go source text is UTF-8). -/
def goLit (s : String) : GoString :=
  s.data.flatMap String.utf8EncodeChar

/-- The conversion `string(b)` of a byte slice: the same bytes. -/
def string (b : List UInt8) : GoString := b

/-- The conversion `[]byte(s)` of a string: the same bytes. -/
def bytes (s : GoString) : List UInt8 := s

/-- Modelled from the spec: `strings.MergeBytes` of the package
`github.com/stretchrcom/stew/strings`, which is imported by `hash_func.go`
and is not part of this repository.  It merges its arguments into one byte
slice, in argument order. -/
def MergeBytes (parts : List (List UInt8)) : List UInt8 :=
  parts.foldl (fun buffer b => buffer ++ b) []

/-! ## 32-bit word arithmetic -/

/-- Reduction to an unsigned 32-bit word. -/
def u32 (x : Nat) : Nat := x % 2 ^ 32

/-- Bitwise complement of a 32-bit word. -/
def not32 (x : Nat) : Nat := x ^^^ 0xFFFFFFFF

/-- Circular left shift of a 32-bit word by `n` positions, `0 < n < 32`. -/
def rotl32 (x n : Nat) : Nat := u32 (x <<< n) ||| (x >>> (32 - n))

/-- The four bytes of a 32-bit word, most significant first. -/
def be32 (w : Nat) : List UInt8 :=
  [UInt8.ofNat (w >>> 24), UInt8.ofNat (w >>> 16), UInt8.ofNat (w >>> 8), UInt8.ofNat w]

/-- The four bytes of a 32-bit word, least significant first. -/
def le32 (w : Nat) : List UInt8 :=
  [UInt8.ofNat w, UInt8.ofNat (w >>> 8), UInt8.ofNat (w >>> 16), UInt8.ofNat (w >>> 24)]

/-- The eight bytes of a 64-bit word, most significant first. -/
def be64 (w : Nat) : List UInt8 :=
  be32 (w >>> 32) ++ be32 w

/-- The eight bytes of a 64-bit word, least significant first. -/
def le64 (w : Nat) : List UInt8 :=
  le32 w ++ le32 (w >>> 32)

/-- Big-endian words of a byte sequence, four bytes per word. -/
def wordsBE : List UInt8 → List Nat
  | b0 :: b1 :: b2 :: b3 :: rest =>
      (b0.toNat <<< 24 ||| b1.toNat <<< 16 ||| b2.toNat <<< 8 ||| b3.toNat) :: wordsBE rest
  | _ => []

/-- Little-endian words of a byte sequence, four bytes per word. -/
def wordsLE : List UInt8 → List Nat
  | b0 :: b1 :: b2 :: b3 :: rest =>
      (b0.toNat ||| b1.toNat <<< 8 ||| b2.toNat <<< 16 ||| b3.toNat <<< 24) :: wordsLE rest
  | _ => []

/-- The padding appended by `Sum`: the byte `0x80`, then zero bytes up to 56
modulo 64; the 64-bit length in bits follows it. -/
def padZeros (len : Nat) : List UInt8 :=
  let t := if len % 64 < 56 then 56 - len % 64 else 64 + 56 - len % 64
  (0x80 : UInt8) :: List.replicate (t - 1) 0

/-! ## SHA-1 (`crypto/sha1`) -/

namespace sha1

/-- Modelled from the spec: the state of a `crypto/sha1` hash (Go standard
library, not part of this repository): five chaining words, the bytes of the
incomplete block, and the number of bytes written. -/
structure digest where
  h : List Nat
  x : List UInt8
  len : Nat

/-- Modelled from the spec: the logical function `f(t; B, C, D)` of RFC 3174,
section 5. -/
def f (t b c d : Nat) : Nat :=
  if t < 20 then (b &&& c) ||| (not32 b &&& d)
  else if t < 40 then b ^^^ c ^^^ d
  else if t < 60 then (b &&& c) ||| (b &&& d) ||| (c &&& d)
  else b ^^^ c ^^^ d

/-- Modelled from the spec: the constant `K(t)` of RFC 3174, section 5. -/
def K (t : Nat) : Nat :=
  if t < 20 then 0x5A827999
  else if t < 40 then 0x6ED9EBA1
  else if t < 60 then 0x8F1BBCDC
  else 0xCA62C1D6

/-- Modelled from the spec: the message schedule of RFC 3174, section 6.1
step (b): `n` further words `W(t) = S^1(W(t-3) XOR W(t-8) XOR W(t-14) XOR
W(t-16))` appended to the words `w` already computed. -/
def expand : Nat → List Nat → List Nat
  | 0, w => w
  | n + 1, w =>
      let t := w.length
      expand n (w ++ [rotl32 (w.getD (t - 3) 0 ^^^ w.getD (t - 8) 0 ^^^
        w.getD (t - 14) 0 ^^^ w.getD (t - 16) 0) 1])

/-- Modelled from the spec: the 80 rounds of RFC 3174, section 6.1 step (d),
over the scheduled words; the state is `(A, B, C, D, E)`. -/
def rounds : List Nat → Nat → Nat × Nat × Nat × Nat × Nat → Nat × Nat × Nat × Nat × Nat
  | [], _, s => s
  | wt :: ws, t, (a, b, c, d, e) =>
      rounds ws (t + 1) (u32 (rotl32 a 5 + f t b c d + e + wt + K t), a, rotl32 b 30, c, d)

/-- Modelled from the spec: processing of one 64-byte block (RFC 3174,
section 6.1, steps (a) to (e)). -/
def block (h : List Nat) (p : List UInt8) : List Nat :=
  let h0 := h.getD 0 0
  let h1 := h.getD 1 0
  let h2 := h.getD 2 0
  let h3 := h.getD 3 0
  let h4 := h.getD 4 0
  match rounds (expand 64 (wordsBE p)) 0 (h0, h1, h2, h3, h4) with
  | (a, b, c, d, e) => [u32 (h0 + a), u32 (h1 + b), u32 (h2 + c), u32 (h3 + d), u32 (h4 + e)]

/-- Modelled from the spec: `sha1.New()`, the initial chaining value of
RFC 3174, section 6.1. -/
def New : digest :=
  { h := [0x67452301, 0xEFCDAB89, 0x98BADCFE, 0x10325476, 0xC3D2E1F0], x := [], len := 0 }

/-- Modelled from the spec: writing one byte; a block is processed as soon as
64 bytes are buffered. -/
def writeByte (d : digest) (b : UInt8) : digest :=
  let x := d.x ++ [b]
  if x.length = 64 then { h := block d.h x, x := [], len := d.len + 1 }
  else { h := d.h, x := x, len := d.len + 1 }

/-- Modelled from the spec: `Write`, which absorbs the bytes in order. -/
def Write (d : digest) (p : List UInt8) : digest :=
  p.foldl writeByte d

/-- Modelled from the spec: `Sum(nil)`: pad the message (RFC 3174, section 4),
process the last blocks and return the 20 bytes of the chaining value. -/
def Sum (d : digest) : List UInt8 :=
  let d1 := Write d (padZeros d.len ++ be64 (d.len <<< 3 % 2 ^ 64))
  d1.h.flatMap be32

end sha1

/-! ## MD5 (`crypto/md5`) -/

namespace md5

/-- Modelled from the spec: the state of a `crypto/md5` hash (Go standard
library, not part of this repository): four chaining words, the bytes of the
incomplete block, and the number of bytes written. -/
structure digest where
  s : List Nat
  x : List UInt8
  len : Nat

/-- Modelled from the spec: the table `T[1..64]` of RFC 1321, section 3.4:
`T[i]` is the integer part of `4294967296 * abs(sin(i))`. -/
def T : List Nat :=
  [0xd76aa478, 0xe8c7b756, 0x242070db, 0xc1bdceee, 0xf57c0faf, 0x4787c62a, 0xa8304613, 0xfd469501,
   0x698098d8, 0x8b44f7af, 0xffff5bb1, 0x895cd7be, 0x6b901122, 0xfd987193, 0xa679438e, 0x49b40821,
   0xf61e2562, 0xc040b340, 0x265e5a51, 0xe9b6c7aa, 0xd62f105d, 0x02441453, 0xd8a1e681, 0xe7d3fbc8,
   0x21e1cde6, 0xc33707d6, 0xf4d50d87, 0x455a14ed, 0xa9e3e905, 0xfcefa3f8, 0x676f02d9, 0x8d2a4c8a,
   0xfffa3942, 0x8771f681, 0x6d9d6122, 0xfde5380c, 0xa4beea44, 0x4bdecfa9, 0xf6bb4b60, 0xbebfbc70,
   0x289b7ec6, 0xeaa127fa, 0xd4ef3085, 0x04881d05, 0xd9d4d039, 0xe6db99e5, 0x1fa27cf8, 0xc4ac5665,
   0xf4292244, 0x432aff97, 0xab9423a7, 0xfc93a039, 0x655b59c3, 0x8f0ccc92, 0xffeff47d, 0x85845dd1,
   0x6fa87e4f, 0xfe2ce6e0, 0xa3014314, 0x4e0811a1, 0xf7537e82, 0xbd3af235, 0x2ad7d2bb, 0xeb86d391]

/-- Modelled from the spec: the per-round shift amounts of RFC 1321,
section 3.4, four for each of the four rounds. -/
def shifts : List Nat :=
  [7, 12, 17, 22, 5, 9, 14, 20, 4, 11, 16, 23, 6, 10, 15, 21]

/-- Modelled from the spec: auxiliary function `F` of RFC 1321, section 3.4. -/
def F (x y z : Nat) : Nat := (x &&& y) ||| (not32 x &&& z)

/-- Modelled from the spec: auxiliary function `G` of RFC 1321, section 3.4. -/
def G (x y z : Nat) : Nat := (x &&& z) ||| (y &&& not32 z)

/-- Modelled from the spec: auxiliary function `H` of RFC 1321, section 3.4. -/
def H (x y z : Nat) : Nat := x ^^^ y ^^^ z

/-- Modelled from the spec: auxiliary function `I` of RFC 1321, section 3.4. -/
def I (x y z : Nat) : Nat := y ^^^ (x ||| not32 z)

/-- Modelled from the spec: operation number `i` (from 0) of RFC 1321,
section 3.4: `a = b + ((a + f(b,c,d) + X[k] + T[i+1]) <<< s)`, after which the
four registers rotate. -/
def step (X : List Nat) (r : Nat × Nat × Nat × Nat) (i : Nat) : Nat × Nat × Nat × Nat :=
  match r with
  | (a, b, c, d) =>
      let fv := if i < 16 then F b c d else if i < 32 then G b c d
        else if i < 48 then H b c d else I b c d
      let k := if i < 16 then i else if i < 32 then (5 * i + 1) % 16
        else if i < 48 then (3 * i + 5) % 16 else (7 * i) % 16
      let s := shifts.getD (i / 16 * 4 + i % 4) 0
      (d, u32 (b + rotl32 (u32 (a + fv + X.getD k 0 + T.getD i 0)) s), b, c)

/-- Modelled from the spec: processing of one 64-byte block (RFC 1321,
section 3.4). -/
def block (s : List Nat) (p : List UInt8) : List Nat :=
  let a := s.getD 0 0
  let b := s.getD 1 0
  let c := s.getD 2 0
  let d := s.getD 3 0
  match (List.range 64).foldl (step (wordsLE p)) (a, b, c, d) with
  | (a1, b1, c1, d1) => [u32 (a + a1), u32 (b + b1), u32 (c + c1), u32 (d + d1)]

/-- Modelled from the spec: `md5.New()`, the initial chaining value of
RFC 1321, section 3.3. -/
def New : digest :=
  { s := [0x67452301, 0xefcdab89, 0x98badcfe, 0x10325476], x := [], len := 0 }

/-- Modelled from the spec: writing one byte; a block is processed as soon as
64 bytes are buffered. -/
def writeByte (d : digest) (b : UInt8) : digest :=
  let x := d.x ++ [b]
  if x.length = 64 then { s := block d.s x, x := [], len := d.len + 1 }
  else { s := d.s, x := x, len := d.len + 1 }

/-- Modelled from the spec: `Write` (reached through `io.WriteString`), which
absorbs the bytes in order. -/
def Write (d : digest) (p : List UInt8) : digest :=
  p.foldl writeByte d

/-- Modelled from the spec: `Sum(nil)`: pad the message (RFC 1321, sections
3.1 and 3.2), process the last blocks and return the 16 bytes of the chaining
value, low-order byte of each word first. -/
def Sum (d : digest) : List UInt8 :=
  let d1 := Write d (padZeros d.len ++ le64 (d.len <<< 3 % 2 ^ 64))
  d1.s.flatMap le32

end md5

/-! ## Formatting (`fmt`) -/

/-- Modelled from the spec: the digit table of `fmt` for the verb `%x`. -/
def ldigits : GoString := goLit "0123456789abcdef"

/-- Modelled from the spec: `fmt.Sprintf("%x", b)` for a byte slice `b`: two
lowercase hexadecimal digits per byte, the high nibble first. -/
def sprintfHex (b : List UInt8) : GoString :=
  b.flatMap (fun c => [ldigits.getD (c.toNat / 16) 0, ldigits.getD (c.toNat % 16) 0])

/-! ## The package `signature` -/

/-- The type `HashFunc` represents funcs that can hash a string. -/
abbrev HashFunc := GoString → GoString

/-- The func `SHA1Hash` hashes a string using the SHA-1 hash algorithm as defined in
RFC 3174. -/
def SHA1Hash : HashFunc := fun s =>
  let hash := sha1.New
  let hash := sha1.Write hash (bytes s)
  sprintfHex (sha1.Sum hash)

/-- The func `MD5Hash` hashes a string using the MD5 hash algorithm as defined in
RFC 1321. -/
def MD5Hash : HashFunc := fun s =>
  let m := md5.New
  let m := md5.Write m (bytes s)
  sprintfHex (md5.Sum m)

/-- The mutable state of the package: the variable `Hash`, the `HashFunc`
currently used by `HashWithKeys`. -/
structure State where
  Hash : HashFunc

/-- The state after package initialisation: `var Hash HashFunc = SHA1Hash`. -/
def initState : State := { Hash := SHA1Hash }

/-- The assignment `signature.Hash = f`. -/
def setHash (f : HashFunc) (st : State) : State := { st with Hash := f }

/-- The func `HashWithKeys` generates a hash of the specified bytes by first merging
them with the keys: the public key bytes are appended to the body bytes,
followed by a colon byte, followed by the private key bytes.  It returns the
hash together with the state it leaves behind. -/
def HashWithKeys (body publicKey privateKey : List UInt8) (st : State) : GoString × State :=
  (st.Hash (string (MergeBytes [body, publicKey, bytes (goLit ":"), privateKey])), st)

/-! ## Sequences of operations on the package -/

/-- An operation a caller can perform: an assignment to `Hash`, or a call of
`HashWithKeys`. -/
inductive Op where
  | assign (f : HashFunc)
  | call (body publicKey privateKey : List UInt8)

/-- Runs the operations in order from the state `st`; returns the final state
and the results of the calls, in order. -/
def run : List Op → State → State × List GoString
  | [], st => (st, [])
  | Op.assign f :: ops, st => run ops (setHash f st)
  | Op.call body publicKey privateKey :: ops, st =>
      let r := HashWithKeys body publicKey privateKey st
      let rest := run ops r.2
      (rest.1, r.1 :: rest.2)

/-! ## Vocabulary of the statements -/

/-- A byte is a lowercase hexadecimal digit: `0` to `9` or `a` to `f`. -/
def isLowerHex (c : UInt8) : Prop :=
  ('0'.toNat ≤ c.toNat ∧ c.toNat ≤ '9'.toNat) ∨ ('a'.toNat ≤ c.toNat ∧ c.toNat ≤ 'f'.toNat)

instance : DecidablePred isLowerHex := fun c => by
  unfold isLowerHex
  infer_instance

/-- The first 192 bytes shared by the two colliding PDF files published as the
SHAttered attack on SHA-1 (Stevens, Bursztein, Karpman, Albertini and Markov,
2017). -/
def shatteredCommon : List UInt8 :=
  [
   0x25, 0x50, 0x44, 0x46, 0x2d, 0x31, 0x2e, 0x33, 0x0a, 0x25, 0xe2, 0xe3, 0xcf, 0xd3, 0x0a, 0x0a,
   0x0a, 0x31, 0x20, 0x30, 0x20, 0x6f, 0x62, 0x6a, 0x0a, 0x3c, 0x3c, 0x2f, 0x57, 0x69, 0x64, 0x74,
   0x68, 0x20, 0x32, 0x20, 0x30, 0x20, 0x52, 0x2f, 0x48, 0x65, 0x69, 0x67, 0x68, 0x74, 0x20, 0x33,
   0x20, 0x30, 0x20, 0x52, 0x2f, 0x54, 0x79, 0x70, 0x65, 0x20, 0x34, 0x20, 0x30, 0x20, 0x52, 0x2f,
   0x53, 0x75, 0x62, 0x74, 0x79, 0x70, 0x65, 0x20, 0x35, 0x20, 0x30, 0x20, 0x52, 0x2f, 0x46, 0x69,
   0x6c, 0x74, 0x65, 0x72, 0x20, 0x36, 0x20, 0x30, 0x20, 0x52, 0x2f, 0x43, 0x6f, 0x6c, 0x6f, 0x72,
   0x53, 0x70, 0x61, 0x63, 0x65, 0x20, 0x37, 0x20, 0x30, 0x20, 0x52, 0x2f, 0x4c, 0x65, 0x6e, 0x67,
   0x74, 0x68, 0x20, 0x38, 0x20, 0x30, 0x20, 0x52, 0x2f, 0x42, 0x69, 0x74, 0x73, 0x50, 0x65, 0x72,
   0x43, 0x6f, 0x6d, 0x70, 0x6f, 0x6e, 0x65, 0x6e, 0x74, 0x20, 0x38, 0x3e, 0x3e, 0x0a, 0x73, 0x74,
   0x72, 0x65, 0x61, 0x6d, 0x0a, 0xff, 0xd8, 0xff, 0xfe, 0x00, 0x24, 0x53, 0x48, 0x41, 0x2d, 0x31,
   0x20, 0x69, 0x73, 0x20, 0x64, 0x65, 0x61, 0x64, 0x21, 0x21, 0x21, 0x21, 0x21, 0x85, 0x2f, 0xec,
   0x09, 0x23, 0x39, 0x75, 0x9c, 0x39, 0xb1, 0xa1, 0xc6, 0x3c, 0x4c, 0x97, 0xe1, 0xff, 0xfe, 0x01]

/-- The two near-collision blocks (128 bytes) of the first SHAttered file. -/
def shatteredBlocks1 : List UInt8 :=
  [
   0x73, 0x46, 0xdc, 0x91, 0x66, 0xb6, 0x7e, 0x11, 0x8f, 0x02, 0x9a, 0xb6, 0x21, 0xb2, 0x56, 0x0f,
   0xf9, 0xca, 0x67, 0xcc, 0xa8, 0xc7, 0xf8, 0x5b, 0xa8, 0x4c, 0x79, 0x03, 0x0c, 0x2b, 0x3d, 0xe2,
   0x18, 0xf8, 0x6d, 0xb3, 0xa9, 0x09, 0x01, 0xd5, 0xdf, 0x45, 0xc1, 0x4f, 0x26, 0xfe, 0xdf, 0xb3,
   0xdc, 0x38, 0xe9, 0x6a, 0xc2, 0x2f, 0xe7, 0xbd, 0x72, 0x8f, 0x0e, 0x45, 0xbc, 0xe0, 0x46, 0xd2,
   0x3c, 0x57, 0x0f, 0xeb, 0x14, 0x13, 0x98, 0xbb, 0x55, 0x2e, 0xf5, 0xa0, 0xa8, 0x2b, 0xe3, 0x31,
   0xfe, 0xa4, 0x80, 0x37, 0xb8, 0xb5, 0xd7, 0x1f, 0x0e, 0x33, 0x2e, 0xdf, 0x93, 0xac, 0x35, 0x00,
   0xeb, 0x4d, 0xdc, 0x0d, 0xec, 0xc1, 0xa8, 0x64, 0x79, 0x0c, 0x78, 0x2c, 0x76, 0x21, 0x56, 0x60,
   0xdd, 0x30, 0x97, 0x91, 0xd0, 0x6b, 0xd0, 0xaf, 0x3f, 0x98, 0xcd, 0xa4, 0xbc, 0x46, 0x29, 0xb1]

/-- The two near-collision blocks (128 bytes) of the second SHAttered file. -/
def shatteredBlocks2 : List UInt8 :=
  [
   0x7f, 0x46, 0xdc, 0x93, 0xa6, 0xb6, 0x7e, 0x01, 0x3b, 0x02, 0x9a, 0xaa, 0x1d, 0xb2, 0x56, 0x0b,
   0x45, 0xca, 0x67, 0xd6, 0x88, 0xc7, 0xf8, 0x4b, 0x8c, 0x4c, 0x79, 0x1f, 0xe0, 0x2b, 0x3d, 0xf6,
   0x14, 0xf8, 0x6d, 0xb1, 0x69, 0x09, 0x01, 0xc5, 0x6b, 0x45, 0xc1, 0x53, 0x0a, 0xfe, 0xdf, 0xb7,
   0x60, 0x38, 0xe9, 0x72, 0x72, 0x2f, 0xe7, 0xad, 0x72, 0x8f, 0x0e, 0x49, 0x04, 0xe0, 0x46, 0xc2,
   0x30, 0x57, 0x0f, 0xe9, 0xd4, 0x13, 0x98, 0xab, 0xe1, 0x2e, 0xf5, 0xbc, 0x94, 0x2b, 0xe3, 0x35,
   0x42, 0xa4, 0x80, 0x2d, 0x98, 0xb5, 0xd7, 0x0f, 0x2a, 0x33, 0x2e, 0xc3, 0x7f, 0xac, 0x35, 0x14,
   0xe7, 0x4d, 0xdc, 0x0f, 0x2c, 0xc1, 0xa8, 0x74, 0xcd, 0x0c, 0x78, 0x30, 0x5a, 0x21, 0x56, 0x64,
   0x61, 0x30, 0x97, 0x89, 0x60, 0x6b, 0xd0, 0xbf, 0x3f, 0x98, 0xcd, 0xa8, 0x04, 0x46, 0x29, 0xa1]

/-- A body of 320 bytes: the start of the first SHAttered file. -/
def shattered1 : List UInt8 := shatteredCommon ++ shatteredBlocks1

/-- A body of 320 bytes: the start of the second SHAttered file. -/
def shattered2 : List UInt8 := shatteredCommon ++ shatteredBlocks2

/-! ## Digest functions that assign `Hash` -/

namespace Impure

/-- A Go func value of type `HashFunc`.  Its body computes the string it
returns and, being Go code, may also assign the package variable `Hash` before
it returns: `pureFunc f` makes no assignment, `assignsHash f next` returns
`f s` and leaves `Hash = next s` behind. -/
inductive HashFunc where
  | pureFunc (f : Signature.HashFunc)
  | assignsHash (f : Signature.HashFunc) (next : GoString → HashFunc)

/-- The mutable state of the package: the variable `Hash`. -/
structure State where
  Hash : HashFunc

/-- The state after package initialisation: `var Hash HashFunc = SHA1Hash`. -/
def initState : State := { Hash := HashFunc.pureFunc SHA1Hash }

/-- The assignment `signature.Hash = f`. -/
def setHash (f : HashFunc) (st : State) : State := { st with Hash := f }

/-- The call `h(s)` of a func value in the state `st`: the string returned and
the state the call leaves behind. -/
def call (h : HashFunc) (s : GoString) (st : State) : GoString × State :=
  match h with
  | HashFunc.pureFunc f => (f s, st)
  | HashFunc.assignsHash f next => (f s, { Hash := next s })

/-- The func `HashWithKeys`: it reads `Hash` and calls it on the merged
message; it makes no assignment of its own. -/
def HashWithKeys (body publicKey privateKey : List UInt8) (st : State) : GoString × State :=
  call st.Hash (string (MergeBytes [body, publicKey, bytes (goLit ":"), privateKey])) st

/-- The func `func(s string) string { r := SHA1Hash(s); Hash = MD5Hash; return r }`,
a value of type `HashFunc` that a caller can assign to `Hash`. -/
def sha1ThenSelectMD5 : HashFunc :=
  HashFunc.assignsHash SHA1Hash (fun _ => HashFunc.pureFunc MD5Hash)

/-- The state of the pure embedding seen as a state of this one. -/
def ofPure (st : Signature.State) : State := { Hash := HashFunc.pureFunc st.Hash }

end Impure

/-! # Theorems -/

/-! ## Concatenation -/

theorem goLit_colon : goLit ":" = [0x3A] := by decide

theorem MergeBytes_four (a b c d : List UInt8) :
    MergeBytes [a, b, c, d] = a ++ b ++ c ++ d := by
  simp [MergeBytes]

theorem HashWithKeys_fst (body publicKey privateKey : List UInt8) (st : State) :
    (HashWithKeys body publicKey privateKey st).1
      = st.Hash (body ++ publicKey ++ [0x3A] ++ privateKey) := by
  simp [HashWithKeys, MergeBytes_four, goLit_colon, string, bytes]

theorem HashWithKeys_snd (body publicKey privateKey : List UInt8) (st : State) :
    (HashWithKeys body publicKey privateKey st).2 = st := rfl

/-! ## Hexadecimal rendering -/

theorem sprintfHex_length (b : List UInt8) : (sprintfHex b).length = 2 * b.length := by
  induction b with
  | nil => rfl
  | cons c cs ih =>
      have : sprintfHex (c :: cs) = [ldigits.getD (c.toNat / 16) 0, ldigits.getD (c.toNat % 16) 0] ++ sprintfHex cs := by
        simp [sprintfHex, List.flatMap_cons]
      rw [this, List.length_append, ih]
      simp
      omega

theorem ldigits_isLowerHex : ∀ n : Fin 16, isLowerHex (ldigits.getD n.val 0) := by decide

theorem sprintfHex_isLowerHex (b : List UInt8) : ∀ c ∈ sprintfHex b, isLowerHex c := by
  intro c hc
  simp only [sprintfHex, List.mem_flatMap] at hc
  obtain ⟨x, -, hx⟩ := hc
  have hlt : x.toNat < 256 := x.val.isLt
  simp only [List.mem_cons, List.mem_singleton, List.not_mem_nil, or_false] at hx
  rcases hx with rfl | rfl
  · exact ldigits_isLowerHex ⟨x.toNat / 16, by omega⟩
  · exact ldigits_isLowerHex ⟨x.toNat % 16, by omega⟩

/-! ## Size of the digests -/

theorem flatMap_length_const {α β : Type} (f : α → List β) (n : Nat) (hf : ∀ a, (f a).length = n) :
    ∀ l : List α, (l.flatMap f).length = n * l.length := by
  intro l
  induction l with
  | nil => simp
  | cons a as ih => simp [List.flatMap_cons, hf, ih, Nat.mul_succ, Nat.add_comm]

theorem sha1_block_length (h : List Nat) (p : List UInt8) : (sha1.block h p).length = 5 := by
  simp only [sha1.block, List.length_cons, List.length_nil]

theorem sha1_writeByte_length (d : sha1.digest) (b : UInt8) (hd : d.h.length = 5) :
    (sha1.writeByte d b).h.length = 5 := by
  simp only [sha1.writeByte]
  split
  · simp only [sha1_block_length]
  · exact hd

theorem sha1_Write_length (p : List UInt8) :
    ∀ d : sha1.digest, d.h.length = 5 → (sha1.Write d p).h.length = 5 := by
  induction p with
  | nil => intro d hd; exact hd
  | cons b bs ih =>
      intro d hd
      exact ih (sha1.writeByte d b) (sha1_writeByte_length d b hd)

theorem sha1_Sum_length (d : sha1.digest) (hd : d.h.length = 5) : (sha1.Sum d).length = 20 := by
  simp only [sha1.Sum]
  rw [flatMap_length_const be32 4 (fun _ => rfl), sha1_Write_length _ _ hd]

theorem SHA1Hash_length (s : GoString) : (SHA1Hash s).length = 40 := by
  simp only [SHA1Hash]
  rw [sprintfHex_length, sha1_Sum_length _ (sha1_Write_length (bytes s) sha1.New rfl)]

theorem md5_block_length (s : List Nat) (p : List UInt8) : (md5.block s p).length = 4 := by
  simp only [md5.block, List.length_cons, List.length_nil]

theorem md5_writeByte_length (d : md5.digest) (b : UInt8) (hd : d.s.length = 4) :
    (md5.writeByte d b).s.length = 4 := by
  simp only [md5.writeByte]
  split
  · simp only [md5_block_length]
  · exact hd

theorem md5_Write_length (p : List UInt8) :
    ∀ d : md5.digest, d.s.length = 4 → (md5.Write d p).s.length = 4 := by
  induction p with
  | nil => intro d hd; exact hd
  | cons b bs ih =>
      intro d hd
      exact ih (md5.writeByte d b) (md5_writeByte_length d b hd)

theorem md5_Sum_length (d : md5.digest) (hd : d.s.length = 4) : (md5.Sum d).length = 16 := by
  simp only [md5.Sum]
  rw [flatMap_length_const le32 4 (fun _ => rfl), md5_Write_length _ _ hd]

theorem MD5Hash_length (s : GoString) : (MD5Hash s).length = 32 := by
  simp only [MD5Hash]
  rw [sprintfHex_length, md5_Sum_length _ (md5_Write_length (bytes s) md5.New rfl)]

/-! ## Keys and the separator -/

theorem swap_keys_eq (c : UInt8) (p k : List UInt8)
    (h : p.length = k.length ∨ (c ∉ p ∧ c ∉ k))
    (heq : p ++ [c] ++ k = k ++ [c] ++ p) : p = k := by
  rcases h with hlen | ⟨hp, hk⟩
  · have := List.append_inj (by simpa using heq : p ++ (c :: k) = k ++ (c :: p)) hlen
    exact this.1
  · have heq2 : p ++ (c :: k) = k ++ (c :: p) := by simpa using heq
    rcases List.append_eq_append_iff.mp heq2 with ⟨a, ha, hb⟩ | ⟨a, ha, hb⟩
    · cases a with
      | nil => simpa using ha.symm
      | cons x xs =>
          simp at hb
          exact absurd (by rw [ha, hb.1]; simp) hk
    · cases a with
      | nil => simpa using ha
      | cons x xs =>
          simp at hb
          exact absurd (by rw [ha, hb.1]; simp) hp

theorem run_calls (f : HashFunc) (calls : List (List UInt8 × List UInt8 × List UInt8)) :
    ∀ st : State, st.Hash = f →
      run (calls.map (fun c => Op.call c.1 c.2.1 c.2.2)) st
        = (st, calls.map (fun c => f (c.1 ++ c.2.1 ++ [0x3A] ++ c.2.2))) := by
  induction calls with
  | nil => intro st _; rfl
  | cons c cs ih =>
      intro st hst
      simp only [List.map_cons, run, HashWithKeys_snd, HashWithKeys_fst, ih st hst, hst]

theorem HashWithKeys_swap_keys_same (body publicKey privateKey : List UInt8) (st : State)
    (hkeys : publicKey ++ [0x3A] ++ privateKey = privateKey ++ [0x3A] ++ publicKey) :
    (HashWithKeys body publicKey privateKey st).1
      = (HashWithKeys body privateKey publicKey st).1 := by
  rw [HashWithKeys_fst, HashWithKeys_fst]
  simp only [List.append_assoc] at hkeys ⊢
  rw [hkeys]

/-! ## Digest functions that assign `Hash` -/

theorem Impure_HashWithKeys_ofPure (body publicKey privateKey : List UInt8) (st : State) :
    Impure.HashWithKeys body publicKey privateKey (Impure.ofPure st)
      = ((HashWithKeys body publicKey privateKey st).1,
         Impure.ofPure (HashWithKeys body publicKey privateKey st).2) := rfl

theorem Impure_HashWithKeys_pureFunc (body publicKey privateKey : List UInt8)
    (st : Impure.State) (f : HashFunc) (hsel : st.Hash = Impure.HashFunc.pureFunc f) :
    Impure.HashWithKeys body publicKey privateKey st
      = (f (body ++ publicKey ++ [0x3A] ++ privateKey), st) := by
  simp [Impure.HashWithKeys, Impure.call, hsel, MergeBytes_four, goLit_colon, string, bytes]

theorem Impure_HashWithKeys_assignsHash (body publicKey privateKey : List UInt8)
    (st : Impure.State) (f : HashFunc) (next : GoString → Impure.HashFunc)
    (hsel : st.Hash = Impure.HashFunc.assignsHash f next) :
    Impure.HashWithKeys body publicKey privateKey st
      = (f (body ++ publicKey ++ [0x3A] ++ privateKey),
         { Hash := next (body ++ publicKey ++ [0x3A] ++ privateKey) }) := by
  simp [Impure.HashWithKeys, Impure.call, hsel, MergeBytes_four, goLit_colon, string, bytes]

theorem Impure_HashWithKeys_twice (body publicKey privateKey : List UInt8)
    (st : Impure.State) (f g : HashFunc)
    (hsel : st.Hash = Impure.HashFunc.assignsHash f (fun _ => Impure.HashFunc.pureFunc g)) :
    (Impure.HashWithKeys body publicKey privateKey st).1
      = f (body ++ publicKey ++ [0x3A] ++ privateKey) ∧
    (Impure.HashWithKeys body publicKey privateKey
        (Impure.HashWithKeys body publicKey privateKey st).2).1
      = g (body ++ publicKey ++ [0x3A] ++ privateKey) := by
  have h1 := Impure_HashWithKeys_assignsHash body publicKey privateKey st f _ hsel
  constructor
  · rw [h1]
  · rw [h1]
    exact congrArg Prod.fst
      (Impure_HashWithKeys_pureFunc body publicKey privateKey _ g rfl)

/-! ## The claims -/

/-- C1: for every body, public key and private key and every selected digest
function, `HashWithKeys` returns the selected function applied to the string
whose bytes are the body, the public key, the byte `0x3A` and the private key,
in that order. -/
theorem HashWithKeys_eq_Hash_concat (body publicKey privateKey : List UInt8) (st : State) :
    (HashWithKeys body publicKey privateKey st).1
      = st.Hash (string (body ++ publicKey ++ [0x3A] ++ privateKey)) :=
  HashWithKeys_fst body publicKey privateKey st

/-- C2: in the initial state the selected digest function is `SHA1Hash`, and
`HashWithKeys` returns `SHA1Hash` of the body, the public key, a colon and the
private key. -/
theorem HashWithKeys_initState (body publicKey privateKey : List UInt8) :
    initState.Hash = SHA1Hash ∧
    (HashWithKeys body publicKey privateKey initState).1
      = SHA1Hash (body ++ publicKey ++ goLit ":" ++ privateKey) := by
  refine ⟨rfl, ?_⟩
  rw [HashWithKeys_fst, goLit_colon]
  rfl

/-- C3: from any state, after the assignment of `f` to `Hash`, every call of
`HashWithKeys` made before another assignment returns `f` of the body, the
public key, a colon and the private key, and `f` is still selected afterwards. -/
theorem run_assign_calls (st : State) (f : HashFunc)
    (calls : List (List UInt8 × List UInt8 × List UInt8)) :
    (run (Op.assign f :: calls.map (fun c => Op.call c.1 c.2.1 c.2.2)) st).2
        = calls.map (fun c => f (c.1 ++ c.2.1 ++ goLit ":" ++ c.2.2)) ∧
    (run (Op.assign f :: calls.map (fun c => Op.call c.1 c.2.1 c.2.2)) st).1.Hash = f := by
  have h := run_calls f calls (setHash f st) rfl
  constructor
  · show (run (calls.map _) (setHash f st)).2 = _
    rw [h, goLit_colon]
  · show (run (calls.map _) (setHash f st)).1.Hash = f
    rw [h]
    rfl

set_option maxRecDepth 100000 in
/-- C4: `SHA1Hash` of the empty string is
`da39a3ee5e6b4b0d3255bfef95601890afd80709`. -/
theorem SHA1Hash_empty :
    SHA1Hash (goLit "") = goLit "da39a3ee5e6b4b0d3255bfef95601890afd80709" := by
  decide!

set_option maxRecDepth 100000 in
/-- C5: `MD5Hash` of the empty string is `d41d8cd98f00b204e9800998ecf8427e`. -/
theorem MD5Hash_empty :
    MD5Hash (goLit "") = goLit "d41d8cd98f00b204e9800998ecf8427e" := by
  decide!

/-- C6: with `SHA1Hash` selected, `HashWithKeys` of three empty byte sequences
is `SHA1Hash` of the string `":"`, and the merged message is the single byte
`0x3A`. -/
theorem HashWithKeys_empty_inputs (st : State) (hsel : st.Hash = SHA1Hash) :
    (HashWithKeys [] [] [] st).1 = SHA1Hash (goLit ":") ∧
    string (MergeBytes [[], [], bytes (goLit ":"), []]) = [0x3A] := by
  constructor
  · rw [HashWithKeys_fst, hsel, goLit_colon]
    rfl
  · rw [MergeBytes_four, goLit_colon]
    rfl

/-- Witness of C6: the initial state has `SHA1Hash` selected. -/
theorem HashWithKeys_empty_inputs_witness :
    initState.Hash = SHA1Hash ∧
    ((HashWithKeys [] [] [] initState).1 = SHA1Hash (goLit ":") ∧
      string (MergeBytes [[], [], bytes (goLit ":"), []]) = [0x3A]) :=
  ⟨rfl, HashWithKeys_empty_inputs initState rfl⟩

/-- Counterexample to C7: the empty public key and the private key `":"`
differ, yet swapping them leaves the hashed message `"::"`, hence the output,
unchanged; and under a constant digest function the keys `"a"` and `"b"`
give the same output in both orders. -/
theorem HashWithKeys_swap_keys_collide :
    (([] : List UInt8) ≠ [0x3A] ∧
      (HashWithKeys [] [] [0x3A] initState).1 = (HashWithKeys [] [0x3A] [] initState).1) ∧
    (goLit "a" ≠ goLit "b" ∧
      (HashWithKeys [] (goLit "a") (goLit "b") (setHash (fun _ => goLit "x") initState)).1
        = (HashWithKeys [] (goLit "b") (goLit "a") (setHash (fun _ => goLit "x") initState)).1) := by
  refine ⟨⟨by decide, ?_⟩, ⟨by decide, ?_⟩⟩
  · rw [HashWithKeys_fst, HashWithKeys_fst]
    exact congrArg initState.Hash (by decide)
  · rw [HashWithKeys_fst, HashWithKeys_fst]
    rfl

/-- C7, amended: when the two orders of the keys around the colon spell
different bytes, swapping the keys changes the message that is hashed, and
the output of `HashWithKeys` changes exactly when the selected digest function
gives these two messages different digests. -/
theorem HashWithKeys_swap_keys_ne (body publicKey privateKey : List UInt8) (st : State)
    (hkeys : publicKey ++ [0x3A] ++ privateKey ≠ privateKey ++ [0x3A] ++ publicKey) :
    body ++ publicKey ++ [0x3A] ++ privateKey ≠ body ++ privateKey ++ [0x3A] ++ publicKey ∧
    ((HashWithKeys body publicKey privateKey st).1
        ≠ (HashWithKeys body privateKey publicKey st).1 ↔
      st.Hash (body ++ publicKey ++ [0x3A] ++ privateKey)
        ≠ st.Hash (body ++ privateKey ++ [0x3A] ++ publicKey)) := by
  constructor
  · intro heq
    apply hkeys
    simp only [List.append_assoc] at heq ⊢
    exact List.append_cancel_left heq
  · rw [HashWithKeys_fst, HashWithKeys_fst]

set_option maxRecDepth 100000 in
/-- Witness of the amended C7: the keys `"a:"` and `"b"` with the body `"x"`
in the initial state, where the two outputs under `SHA1Hash` do differ. -/
theorem HashWithKeys_swap_keys_ne_witness :
    goLit "a:" ++ [0x3A] ++ goLit "b" ≠ goLit "b" ++ [0x3A] ++ goLit "a:" ∧
    (goLit "x" ++ goLit "a:" ++ [0x3A] ++ goLit "b"
        ≠ goLit "x" ++ goLit "b" ++ [0x3A] ++ goLit "a:" ∧
      ((HashWithKeys (goLit "x") (goLit "a:") (goLit "b") initState).1
          ≠ (HashWithKeys (goLit "x") (goLit "b") (goLit "a:") initState).1 ↔
        initState.Hash (goLit "x" ++ goLit "a:" ++ [0x3A] ++ goLit "b")
          ≠ initState.Hash (goLit "x" ++ goLit "b" ++ [0x3A] ++ goLit "a:"))) ∧
    (HashWithKeys (goLit "x") (goLit "a:") (goLit "b") initState).1
      ≠ (HashWithKeys (goLit "x") (goLit "b") (goLit "a:") initState).1 :=
  ⟨by decide,
    HashWithKeys_swap_keys_ne (goLit "x") (goLit "a:") (goLit "b") initState (by decide),
    (HashWithKeys_swap_keys_ne (goLit "x") (goLit "a:") (goLit "b") initState (by decide)).2.mpr
      (by decide!)⟩

set_option maxRecDepth 1000000 in
/-- Counterexample to C8: the two SHAttered bodies differ, yet with empty keys
and the default `SHA1Hash` both calls of `HashWithKeys` return
`a9695650aa7f376d765c3879397a90c2a92812c0`. -/
theorem HashWithKeys_body_collide :
    shattered1 ≠ shattered2 ∧
    (HashWithKeys shattered1 [] [] initState).1
      = goLit "a9695650aa7f376d765c3879397a90c2a92812c0" ∧
    (HashWithKeys shattered2 [] [] initState).1
      = goLit "a9695650aa7f376d765c3879397a90c2a92812c0" := by
  refine ⟨by decide, by decide!, by decide!⟩

/-- C8, amended: for fixed keys, distinct bodies give distinct messages to
hash, and so distinct outputs of `HashWithKeys` for every injective digest
function. -/
theorem HashWithKeys_body_ne (b1 b2 publicKey privateKey : List UInt8) (st : State)
    (hne : b1 ≠ b2) :
    b1 ++ publicKey ++ [0x3A] ++ privateKey ≠ b2 ++ publicKey ++ [0x3A] ++ privateKey ∧
    (Function.Injective st.Hash →
      (HashWithKeys b1 publicKey privateKey st).1
        ≠ (HashWithKeys b2 publicKey privateKey st).1) := by
  have hmsg : b1 ++ publicKey ++ [0x3A] ++ privateKey
      ≠ b2 ++ publicKey ++ [0x3A] ++ privateKey := by
    intro heq
    apply hne
    simp only [List.append_assoc] at heq
    exact List.append_cancel_right heq
  refine ⟨hmsg, fun hinj heq => hmsg ?_⟩
  rw [HashWithKeys_fst, HashWithKeys_fst] at heq
  exact hinj heq

/-- Witness of the amended C8: bodies `[1]` and `[2]` under the identity digest
function. -/
theorem HashWithKeys_body_ne_witness :
    ([1] : List UInt8) ≠ [2] ∧
    Function.Injective (setHash (fun s => s) initState).Hash ∧
    ([1] ++ [7] ++ [0x3A] ++ [9] : List UInt8) ≠ [2] ++ [7] ++ [0x3A] ++ [9] ∧
    (HashWithKeys [1] [7] [9] (setHash (fun s => s) initState)).1
      ≠ (HashWithKeys [2] [7] [9] (setHash (fun s => s) initState)).1 :=
  ⟨by decide, fun _ _ h => h,
    (HashWithKeys_body_ne [1] [2] [7] [9] (setHash (fun s => s) initState) (by decide)).1,
    (HashWithKeys_body_ne [1] [2] [7] [9] (setHash (fun s => s) initState) (by decide)).2
      (fun _ _ h => h)⟩

/-- C9: on the same inputs, the result of `HashWithKeys` with `SHA1Hash`
selected differs from its result with `MD5Hash` selected. -/
theorem HashWithKeys_SHA1_ne_MD5 (body publicKey privateKey : List UInt8) (st1 st2 : State)
    (h1 : st1.Hash = SHA1Hash) (h2 : st2.Hash = MD5Hash) :
    (HashWithKeys body publicKey privateKey st1).1
      ≠ (HashWithKeys body publicKey privateKey st2).1 := by
  intro heq
  rw [HashWithKeys_fst, HashWithKeys_fst, h1, h2] at heq
  have hlen := congrArg List.length heq
  rw [SHA1Hash_length, MD5Hash_length] at hlen
  omega

/-- Witness of C9: the initial state against the state after `Hash = MD5Hash`,
on the inputs `"body"`, `"pub"` and `"priv"`. -/
theorem HashWithKeys_SHA1_ne_MD5_witness :
    initState.Hash = SHA1Hash ∧ (setHash MD5Hash initState).Hash = MD5Hash ∧
    (HashWithKeys (goLit "body") (goLit "pub") (goLit "priv") initState).1
      ≠ (HashWithKeys (goLit "body") (goLit "pub") (goLit "priv")
          (setHash MD5Hash initState)).1 :=
  ⟨rfl, rfl, HashWithKeys_SHA1_ne_MD5 (goLit "body") (goLit "pub") (goLit "priv")
    initState (setHash MD5Hash initState) rfl rfl⟩

/-- C10: for every string, `SHA1Hash` returns exactly 40 characters, each a
lowercase hexadecimal digit. -/
theorem SHA1Hash_forty_lower_hex (s : GoString) :
    (SHA1Hash s).length = 40 ∧ ∀ c ∈ SHA1Hash s, isLowerHex c :=
  ⟨SHA1Hash_length s, sprintfHex_isLowerHex _⟩

/-- C11: for every string, `MD5Hash` returns exactly 32 characters, each a
lowercase hexadecimal digit. -/
theorem MD5Hash_thirty_two_lower_hex (s : GoString) :
    (MD5Hash s).length = 32 ∧ ∀ c ∈ MD5Hash s, isLowerHex c :=
  ⟨MD5Hash_length s, sprintfHex_isLowerHex _⟩

/-- Counterexample to C12: with the func `sha1ThenSelectMD5` selected, a call
of `HashWithKeys` leaves `MD5Hash` selected, which is not the func that was
selected before the call, and a following call with the same inputs returns a
different result. -/
theorem HashWithKeys_selection_changed :
    (Impure.HashWithKeys [] [] [] (Impure.setHash Impure.sha1ThenSelectMD5 Impure.initState)).2.Hash
      = Impure.HashFunc.pureFunc MD5Hash ∧
    (Impure.HashWithKeys [] [] [] (Impure.setHash Impure.sha1ThenSelectMD5 Impure.initState)).2.Hash
      ≠ Impure.sha1ThenSelectMD5 ∧
    (Impure.HashWithKeys [] [] []
        (Impure.HashWithKeys [] [] []
          (Impure.setHash Impure.sha1ThenSelectMD5 Impure.initState)).2).1
      ≠ (Impure.HashWithKeys [] [] []
          (Impure.setHash Impure.sha1ThenSelectMD5 Impure.initState)).1 := by
  refine ⟨rfl, ?_, ?_⟩
  · intro h
    cases h
  · intro h
    have h2 := Impure_HashWithKeys_twice [] [] []
      (Impure.setHash Impure.sha1ThenSelectMD5 Impure.initState) SHA1Hash MD5Hash rfl
    rw [h2.1, h2.2] at h
    have hlen := congrArg List.length h
    rw [SHA1Hash_length, MD5Hash_length] at hlen
    omega

/-- C12, amended: `HashWithKeys` makes no assignment of its own, so for every
selected digest function that does not assign `Hash` the state after a call is
the state before it, that function is still selected, and a following call
with the same inputs returns the same result. -/
theorem HashWithKeys_selection_kept (body publicKey privateKey : List UInt8)
    (st : Impure.State) (f : HashFunc) (hsel : st.Hash = Impure.HashFunc.pureFunc f) :
    (Impure.HashWithKeys body publicKey privateKey st).2 = st ∧
    (Impure.HashWithKeys body publicKey privateKey st).2.Hash = Impure.HashFunc.pureFunc f ∧
    (Impure.HashWithKeys body publicKey privateKey
        (Impure.HashWithKeys body publicKey privateKey st).2).1
      = (Impure.HashWithKeys body publicKey privateKey st).1 := by
  have h := Impure_HashWithKeys_pureFunc body publicKey privateKey st f hsel
  refine ⟨?_, ?_, ?_⟩
  · rw [h]
  · rw [h]; exact hsel
  · rw [h]
    show (Impure.HashWithKeys body publicKey privateKey st).1 = _
    rw [h]

/-- Witness of the amended C12: the initial state, where `SHA1Hash` is
selected. -/
theorem HashWithKeys_selection_kept_witness :
    Impure.initState.Hash = Impure.HashFunc.pureFunc SHA1Hash ∧
    ((Impure.HashWithKeys [1] [2] [3] Impure.initState).2 = Impure.initState ∧
     (Impure.HashWithKeys [1] [2] [3] Impure.initState).2.Hash
       = Impure.HashFunc.pureFunc SHA1Hash ∧
     (Impure.HashWithKeys [1] [2] [3] (Impure.HashWithKeys [1] [2] [3] Impure.initState).2).1
       = (Impure.HashWithKeys [1] [2] [3] Impure.initState).1) :=
  ⟨rfl, HashWithKeys_selection_kept [1] [2] [3] Impure.initState SHA1Hash rfl⟩

/-- C13: the result of `HashWithKeys` depends on the state only through the
selected digest function: two states with the same selection give the same
result on the same inputs, and two successive calls with the same inputs
return the same string. -/
theorem HashWithKeys_deterministic (body publicKey privateKey : List UInt8) (st1 st2 : State)
    (hsel : st1.Hash = st2.Hash) :
    (HashWithKeys body publicKey privateKey st1).1
      = (HashWithKeys body publicKey privateKey st2).1 ∧
    (run [Op.call body publicKey privateKey, Op.call body publicKey privateKey] st1).2
      = [st1.Hash (body ++ publicKey ++ [0x3A] ++ privateKey),
         st1.Hash (body ++ publicKey ++ [0x3A] ++ privateKey)] := by
  constructor
  · rw [HashWithKeys_fst, HashWithKeys_fst, hsel]
  · simp only [run, HashWithKeys_fst, HashWithKeys_snd]

/-- Witness of C13: the initial state and the state reached by selecting
`MD5Hash` and then `SHA1Hash` again. -/
theorem HashWithKeys_deterministic_witness :
    initState.Hash = (setHash SHA1Hash (setHash MD5Hash initState)).Hash ∧
    ((HashWithKeys [1] [2] [3] initState).1
      = (HashWithKeys [1] [2] [3] (setHash SHA1Hash (setHash MD5Hash initState))).1 ∧
    (run [Op.call [1] [2] [3], Op.call [1] [2] [3]] initState).2
      = [initState.Hash ([1] ++ [2] ++ [0x3A] ++ [3]),
         initState.Hash ([1] ++ [2] ++ [0x3A] ++ [3])]) :=
  ⟨rfl, HashWithKeys_deterministic [1] [2] [3] initState
    (setHash SHA1Hash (setHash MD5Hash initState)) rfl⟩

/-- C14: the boundary between body and public key is not delimited: moving
bytes `x` from the end of the body to the start of the public key leaves the
result unchanged, and any two pairs of body and public key with the same
concatenation give the same result. -/
theorem HashWithKeys_body_key_boundary (b x p k : List UInt8) (st : State) :
    (HashWithKeys (b ++ x) p k st).1 = (HashWithKeys b (x ++ p) k st).1 ∧
    ∀ b1 p1 b2 p2 : List UInt8, b1 ++ p1 = b2 ++ p2 →
      (HashWithKeys b1 p1 k st).1 = (HashWithKeys b2 p2 k st).1 := by
  constructor
  · rw [HashWithKeys_fst, HashWithKeys_fst]
    simp only [List.append_assoc]
  · intro b1 p1 b2 p2 h
    rw [HashWithKeys_fst, HashWithKeys_fst, h]

/-- C15: the colon does not make the split between the keys unambiguous:
the keys `p ++ ":" ++ x` and `k` give the same result as the keys `p` and
`x ++ ":" ++ k`, although the two pairs of keys differ. -/
theorem HashWithKeys_colon_in_key (b p x k : List UInt8) (st : State) :
    (HashWithKeys b (p ++ goLit ":" ++ x) k st).1
      = (HashWithKeys b p (x ++ goLit ":" ++ k) st).1 ∧
    (p ++ goLit ":" ++ x, k) ≠ (p, x ++ goLit ":" ++ k) := by
  constructor
  · rw [HashWithKeys_fst, HashWithKeys_fst]
    simp only [goLit_colon, List.append_assoc]
  · intro h
    have h1 := congrArg (fun q => q.1.length) h
    simp [goLit_colon] at h1

set_option maxRecDepth 100000 in
/-- An instance on bytes that are not valid UTF-8: the body `ff c0`, the public
key `fe 80` and the private key `ed a0 80` are hashed as they are, under
`SHA1Hash` and under `MD5Hash`. -/
theorem HashWithKeys_invalid_utf8 :
    (HashWithKeys [0xff, 0xc0] [0xfe, 0x80] [0xed, 0xa0, 0x80] initState).1
      = goLit "0619a83f2bad65d13352ae34844ed9184b530309" ∧
    (HashWithKeys [0xff, 0xc0] [0xfe, 0x80] [0xed, 0xa0, 0x80] (setHash MD5Hash initState)).1
      = goLit "b1b23cbcd6199a637c93e8149796cb81" := by
  refine ⟨by decide!, by decide!⟩

/-- C16: the conversions between bytes and strings keep every byte, and for
all inputs, valid UTF-8 or not, `HashWithKeys` under `SHA1Hash` (under
`MD5Hash`) returns the lowercase hexadecimal rendering of the SHA-1 (MD5) sum
of the bytes of the body, the public key, `0x3A` and the private key. -/
theorem HashWithKeys_raw_bytes (body publicKey privateKey : List UInt8) (st : State) :
    bytes (string (body ++ publicKey ++ [0x3A] ++ privateKey))
      = body ++ publicKey ++ [0x3A] ++ privateKey ∧
    (HashWithKeys body publicKey privateKey (setHash SHA1Hash st)).1
      = sprintfHex (sha1.Sum (sha1.Write sha1.New
          (body ++ publicKey ++ [0x3A] ++ privateKey))) ∧
    (HashWithKeys body publicKey privateKey (setHash MD5Hash st)).1
      = sprintfHex (md5.Sum (md5.Write md5.New
          (body ++ publicKey ++ [0x3A] ++ privateKey))) ∧
    (∀ c ∈ (HashWithKeys body publicKey privateKey (setHash SHA1Hash st)).1, isLowerHex c) ∧
    (∀ c ∈ (HashWithKeys body publicKey privateKey (setHash MD5Hash st)).1, isLowerHex c) := by
  refine ⟨rfl, ?_, ?_, ?_, ?_⟩
  · rw [HashWithKeys_fst]
    rfl
  · rw [HashWithKeys_fst]
    rfl
  · rw [HashWithKeys_fst]
    exact sprintfHex_isLowerHex _
  · rw [HashWithKeys_fst]
    exact sprintfHex_isLowerHex _

end Signature
